import Mathlib

/-!
Verification of the dense local-matrix kernel (src/include/math/dense_matrix.h,
class DenseMatrix<T> together with the dimensions held by DenseMatrixBase<T>).

Scalars are modelled by the rationals (the Real scalar type of the code), and
complex scalars by pairs of rationals.  Machine-unsigned dimensions are
modelled by Nat.  The contiguous buffer std::vector<T> _val is a List.
Debug assertions are modelled by Option-returning checked variants; a release
read out of bounds (C++ undefined behaviour) is modelled as the default 0 and
never relied upon in a theorem except where every access is in range.
-/

unseal Rat.add Rat.mul Rat.sub Rat.inv Rat.ofScientific

/-- Decomposition state tag of a matrix (dense_matrix.h lines 316-322):
which decomposition, if any, the stored values currently represent. -/
inductive DecompositionType where
  | LU
  | CHOLESKY
  | NONE
deriving DecidableEq, Repr

/-- Shallow embedding of DenseMatrix<T>:  row count _m and column count _n
(from DenseMatrixBase<T>), the row-major value buffer _val, and the
decomposition state tag _decomposition_type. -/
structure DenseMatrix (α : Type) where
  m : Nat
  n : Nat
  val : List α
  decomposition_type : DecompositionType
deriving DecidableEq, Repr

/-- Release-build element read, row-major offset i*n+j (dense_matrix.h line 454).
An out-of-range read is C++ undefined behaviour; the model returns 0 there. -/
def DenseMatrix.entry {α : Type} [Zero α] (A : DenseMatrix α) (i j : Nat) : α :=
  A.val.getD (i * A.n + j) 0

/-- Checked element read, operator()(i,j) const (dense_matrix.h lines 443-455):
the three debug assertions i*j < _val.size(), i < _m, j < _n guard the
row-major read _val[i*n + j]; none returned means an assertion fired. -/
def DenseMatrix.atChecked {α : Type} [Zero α] (A : DenseMatrix α) (i j : Nat) : Option α :=
  if i * j < A.val.length ∧ i < A.m ∧ j < A.n then
    some (A.val.getD (i * A.n + j) 0)
  else
    none

/-- Checked element write through the reference returned by operator()(i,j)
(dense_matrix.h lines 459-470): same assertions, write at offset i*n + j. -/
def DenseMatrix.setChecked {α : Type} [Zero α] (A : DenseMatrix α) (i j : Nat) (v : α) :
    Option (DenseMatrix α) :=
  if i * j < A.val.length ∧ i < A.m ∧ j < A.n then
    some { A with val := A.val.set (i * A.n + j) v }
  else
    none

/-- DenseMatrix<T>::zero (dense_matrix.h lines 417-424): set the tag to NONE and
std::fill the whole buffer with 0. -/
def DenseMatrix.zero {α : Type} [Zero α] (A : DenseMatrix α) : DenseMatrix α :=
  { A with decomposition_type := .NONE, val := A.val.map (fun _ => 0) }

/-- std::vector<T>::resize(N): keep the first min(old, N) elements and append
value-initialized (zero) elements up to length N. -/
def vecResize {α : Type} [Zero α] (v : List α) (N : Nat) : List α :=
  v.take N ++ List.replicate (N - v.length) 0

/-- DenseMatrix<T>::resize (dense_matrix.h lines 401-413): _val.resize(m*n),
set _m and _n, set the tag to NONE, then zero(). -/
def DenseMatrix.resize {α : Type} [Zero α] (A : DenseMatrix α) (m n : Nat) : DenseMatrix α :=
  DenseMatrix.zero { m := m, n := n, val := vecResize A.val (m * n), decomposition_type := .NONE }

/-- Ordinary constructor DenseMatrix(m, n) (dense_matrix.h lines 365-373):
base dimensions m, n, tag initialized to NONE, then this->resize(m,n). -/
def DenseMatrix.construct (α : Type) [Zero α] (m n : Nat) : DenseMatrix α :=
  DenseMatrix.resize { m := m, n := n, val := [], decomposition_type := .NONE } m n

/-- Copy constructor (dense_matrix.h lines 377-383): copies _m, _n and _val but
never assigns _decomposition_type, which is left uninitialized.  The
parameter junk stands for the indeterminate value the field happens to hold. -/
def DenseMatrix.copy {α : Type} (other : DenseMatrix α) (junk : DecompositionType) :
    DenseMatrix α :=
  { m := other.m, n := other.n, val := other.val, decomposition_type := junk }

/-- Assignment operator= (dense_matrix.h lines 428-439): copies _m, _n, _val and
_decomposition_type from the source into the receiver. -/
def DenseMatrix.assign {α : Type} (A other : DenseMatrix α) : DenseMatrix α :=
  { A with m := other.m, n := other.n, val := other.val,
           decomposition_type := other.decomposition_type }

/-- DenseMatrix<T>::swap (dense_matrix.h lines 387-397): exchange _m, _n, _val
and _decomposition_type of the two matrices; returned as the pair
(new receiver state, new argument state). -/
def DenseMatrix.swap {α : Type} (A B : DenseMatrix α) : DenseMatrix α × DenseMatrix α :=
  ({ m := B.m, n := B.n, val := B.val, decomposition_type := B.decomposition_type },
   { m := A.m, n := A.n, val := A.val, decomposition_type := A.decomposition_type })

/-- DenseMatrix<T>::scale (dense_matrix.h lines 476-482): _val[i] *= factor for
every buffer index; nothing else is touched. -/
def DenseMatrix.scale {α : Type} [Mul α] (A : DenseMatrix α) (factor : α) : DenseMatrix α :=
  { A with val := A.val.map (fun x => x * factor) }

/-- DenseMatrix<T>::add (dense_matrix.h lines 496-502): for every index
i < _val.size(), _val[i] += factor * mat._val[i].  There is no dimension
check; a read past mat's buffer is C++ undefined behaviour, modelled as 0. -/
def DenseMatrix.add {α : Type} [Zero α] [Add α] [Mul α]
    (A : DenseMatrix α) (factor : α) (mat : DenseMatrix α) : DenseMatrix α :=
  { A with val := ((List.range A.val.length).map
      (fun i => A.val.getD i 0 + factor * mat.val.getD i 0)) }

/-- operator+= (dense_matrix.h lines 506-514): for every index i < _val.size(),
_val[i] += mat._val[i]; again no dimension check. -/
def DenseMatrix.addAssign {α : Type} [Zero α] [Add α]
    (A mat : DenseMatrix α) : DenseMatrix α :=
  { A with val := ((List.range A.val.length).map
      (fun i => A.val.getD i 0 + mat.val.getD i 0)) }

/-- Reading index k of the map of a function over List.range N yields the
function's value at k whenever k < N. -/
theorem getD_range_map (N k : Nat) (f : Nat → ℚ) (d : ℚ) (h : k < N) :
    ((List.range N).map f).getD k d = f k := by
  rw [List.getD_eq_getElem?_getD]
  simp [List.getElem?_map, List.getElem?_range, h]

/-- Claim C1 counterexample input: a 1-by-1 matrix whose tag records an LU
decomposition. -/
def MluC1 : DenseMatrix ℚ := { m := 1, n := 1, val := [5], decomposition_type := .LU }

/-- Claim C1 (counterexample): scale does not reset the decomposition tag to
NONE — on a matrix tagged LU, scale(2) leaves the tag LU, contradicting the
claim that every call to scale resets the tag to Clean. -/
theorem C1_scale_keeps_tag_cex :
    (MluC1.scale 2).decomposition_type ≠ DecompositionType.NONE := by
  decide

/-- Claim C1 (amended): zero and resize reset the decomposition tag to Clean
(NONE); scale, add and operator+= leave the receiver's tag unchanged; and
assignment sets the receiver's tag to the source's tag (not to Clean). -/
theorem C1_tag_transitions (A B : DenseMatrix ℚ) (f : ℚ) (m n : Nat) :
    (A.zero).decomposition_type = DecompositionType.NONE ∧
    (A.resize m n).decomposition_type = DecompositionType.NONE ∧
    (A.scale f).decomposition_type = A.decomposition_type ∧
    (A.add f B).decomposition_type = A.decomposition_type ∧
    (A.addAssign B).decomposition_type = A.decomposition_type ∧
    (A.assign B).decomposition_type = B.decomposition_type :=
  ⟨rfl, rfl, rfl, rfl, rfl, rfl⟩

/-- Claim C4: after resize(m,n) the matrix is m by n, every entry is zero
(the buffer is m*n zeros regardless of the prior contents), and the
decomposition tag is NONE. -/
theorem C4_resize_zero_fills (A : DenseMatrix ℚ) (m n : Nat) :
    (A.resize m n).m = m ∧ (A.resize m n).n = n ∧
    (A.resize m n).val = List.replicate (m * n) (0 : ℚ) ∧
    (A.resize m n).decomposition_type = DecompositionType.NONE := by
  refine ⟨rfl, rfl, ?_, rfl⟩
  show (vecResize A.val (m * n)).map (fun _ => (0 : ℚ)) = List.replicate (m * n) 0
  have hlen : (vecResize A.val (m * n)).length = m * n := by
    simp [vecResize]
    omega
  calc (vecResize A.val (m * n)).map (fun _ => (0 : ℚ))
      = List.replicate (vecResize A.val (m * n)).length (0 : ℚ) := by
        simp [List.map_const]
    _ = List.replicate (m * n) 0 := by rw [hlen]

/-- Claim C9: the copy constructor copies row count, column count and every
element value, but never assigns the decomposition tag: the result's tag is
whatever indeterminate value the field held (the junk parameter), for every
such value; the ordinary constructor by contrast ends with the tag NONE. -/
theorem C9_copy_ctor_tag_uninitialized (other : DenseMatrix ℚ) (junk : DecompositionType)
    (m n : Nat) :
    (other.copy junk).m = other.m ∧ (other.copy junk).n = other.n ∧
    (other.copy junk).val = other.val ∧
    (other.copy junk).decomposition_type = junk ∧
    (DenseMatrix.construct ℚ m n).decomposition_type = DecompositionType.NONE :=
  ⟨rfl, rfl, rfl, rfl, rfl⟩

/-- Claim C10: swap exchanges the complete observable state of the two
matrices — row count, column count, buffer and decomposition tag — and
performing swap on the swapped pair restores the original pair exactly. -/
theorem C10_swap_involution (A B : DenseMatrix ℚ) :
    (A.swap B).1.m = B.m ∧ (A.swap B).1.n = B.n ∧ (A.swap B).1.val = B.val ∧
    (A.swap B).1.decomposition_type = B.decomposition_type ∧
    (A.swap B).2.m = A.m ∧ (A.swap B).2.n = A.n ∧ (A.swap B).2.val = A.val ∧
    (A.swap B).2.decomposition_type = A.decomposition_type ∧
    DenseMatrix.swap (A.swap B).1 (A.swap B).2 = (A, B) :=
  ⟨rfl, rfl, rfl, rfl, rfl, rfl, rfl, rfl, rfl⟩

/-- Claim C5: for a matrix whose buffer length is m*n, in-range element access
(i,j) reads and writes the buffer at the row-major offset i*n+j, that offset
is strictly below m*n, and none of the debug assertions can fire; out-of-range
i or j makes the checked access fail (none, the BoundsError of the spec). -/
theorem C5_rowmajor_bounds (A : DenseMatrix ℚ) (i j : Nat) (v : ℚ) :
    (A.val.length = A.m * A.n → i < A.m → j < A.n →
      i * A.n + j < A.m * A.n ∧
      A.atChecked i j = some (A.val.getD (i * A.n + j) 0) ∧
      A.setChecked i j v = some { A with val := A.val.set (i * A.n + j) v }) ∧
    (A.m ≤ i ∨ A.n ≤ j → A.atChecked i j = none ∧ A.setChecked i j v = none) := by
  constructor
  · intro hlen hi hj
    have h2 : (i + 1) * A.n ≤ A.m * A.n := Nat.mul_le_mul_right _ hi
    have h3 : (i + 1) * A.n = i * A.n + A.n := by ring
    have hoff : i * A.n + j < A.m * A.n := by omega
    have h4 : i * j ≤ i * A.n := Nat.mul_le_mul_left _ (Nat.le_of_lt hj)
    have hassert : i * j < A.val.length := by omega
    exact ⟨hoff, by simp [DenseMatrix.atChecked, hassert, hi, hj],
      by simp [DenseMatrix.setChecked, hassert, hi, hj]⟩
  · intro h
    have hneg : ¬ (i * j < A.val.length ∧ i < A.m ∧ j < A.n) := by
      rintro ⟨h1, h2, h3⟩
      rcases h with h | h <;> omega
    exact ⟨by simp [DenseMatrix.atChecked, hneg], by simp [DenseMatrix.setChecked, hneg]⟩

/-- Concrete 2-by-3 matrix used to witness claim C5. -/
def AC5 : DenseMatrix ℚ :=
  { m := 2, n := 3, val := [1, 2, 3, 4, 5, 6], decomposition_type := .NONE }

/-- Claim C5 witness: in-range access (1,2) of a concrete 2-by-3 matrix hits
offset 5 and succeeds; access at row index 2 fails the bounds check. -/
theorem C5_rowmajor_bounds_witness :
    (1 * AC5.n + 2 < AC5.m * AC5.n ∧
      AC5.atChecked 1 2 = some (AC5.val.getD (1 * AC5.n + 2) 0) ∧
      AC5.setChecked 1 2 9 = some { AC5 with val := AC5.val.set (1 * AC5.n + 2) 9 }) ∧
    (AC5.atChecked 2 0 = none ∧ AC5.setChecked 2 0 9 = none) :=
  ⟨(C5_rowmajor_bounds AC5 1 2 9).1 (by decide) (by decide) (by decide),
   (C5_rowmajor_bounds AC5 2 0 9).2 (Or.inl (by decide))⟩

/-- Claim C2 counterexample receiver: a 1-by-1 matrix. -/
def AC2 : DenseMatrix ℚ := { m := 1, n := 1, val := [1], decomposition_type := .NONE }

/-- Claim C2 counterexample argument: a 2-by-2 matrix. -/
def BC2 : DenseMatrix ℚ :=
  { m := 2, n := 2, val := [10, 20, 30, 40], decomposition_type := .NONE }

/-- Claim C2 (counterexample): add performs no dimension check — with a 1-by-1
receiver and a 2-by-2 argument, whose dimensions differ, add(2, B) does not
fail with any error; it returns the ordinary updated matrix [1 + 2*10]. -/
theorem C2_no_dimension_check_cex :
    AC2.m ≠ BC2.m ∧
    AC2.add 2 BC2 = { m := 1, n := 1, val := [21], decomposition_type := .NONE } := by
  decide

/-- Claim C2 (amended): add(factor, B) performs no dimension check at all; it
always updates, for every buffer index k below the receiver's buffer length,
entry k to A[k] + factor * B[k] (a read past B's buffer is undefined
behaviour in the code, modelled as 0), and leaves the dimensions and the
decomposition tag of the receiver unchanged. -/
theorem C2_add_axpy (A B : DenseMatrix ℚ) (f : ℚ) (k : Nat) :
    (A.add f B).m = A.m ∧ (A.add f B).n = A.n ∧
    (A.add f B).decomposition_type = A.decomposition_type ∧
    (A.add f B).val.length = A.val.length ∧
    (k < A.val.length →
      (A.add f B).val.getD k 0 = A.val.getD k 0 + f * B.val.getD k 0) := by
  refine ⟨rfl, rfl, rfl, by simp [DenseMatrix.add], fun hk => ?_⟩
  show ((List.range A.val.length).map
      (fun i => A.val.getD i 0 + f * B.val.getD i 0)).getD k 0 = _
  exact getD_range_map _ _ _ _ hk

/-- Claim C2 witness: the amended axpy law evaluated on the concrete pair of
matrices of the counterexample at index 0. -/
theorem C2_add_axpy_witness :
    (AC2.add 2 BC2).m = AC2.m ∧ (AC2.add 2 BC2).n = AC2.n ∧
    (AC2.add 2 BC2).decomposition_type = AC2.decomposition_type ∧
    (AC2.add 2 BC2).val.length = AC2.val.length ∧
    (AC2.add 2 BC2).val.getD 0 0 = AC2.val.getD 0 0 + 2 * BC2.val.getD 0 0 :=
  ⟨(C2_add_axpy AC2 BC2 2 0).1, (C2_add_axpy AC2 BC2 2 0).2.1,
   (C2_add_axpy AC2 BC2 2 0).2.2.1, (C2_add_axpy AC2 BC2 2 0).2.2.2.1,
   (C2_add_axpy AC2 BC2 2 0).2.2.2.2 (by decide)⟩

/-- Claim C8: on matrices of identical dimensions, operator+= produces exactly
the same matrix state as add(1, other). -/
theorem C8_plusEq_is_add_one (A B : DenseMatrix ℚ)
    (_hm : A.m = B.m) (_hn : A.n = B.n) :
    A.addAssign B = A.add 1 B := by
  simp [DenseMatrix.addAssign, DenseMatrix.add, one_mul]

/-- Concrete receiver used to witness claim C8. -/
def AC8 : DenseMatrix ℚ := { m := 1, n := 2, val := [1, 2], decomposition_type := .LU }

/-- Concrete argument used to witness claim C8. -/
def BC8 : DenseMatrix ℚ := { m := 1, n := 2, val := [3, 4], decomposition_type := .NONE }

/-- Claim C8 witness: the equivalence evaluated on a concrete pair of 1-by-2
matrices. -/
theorem C8_plusEq_is_add_one_witness : AC8.addAssign BC8 = AC8.add 1 BC8 :=
  C8_plusEq_is_add_one AC8 BC8 (by decide) (by decide)

/-- Column sum of absolute values accumulated by the inner loop of l1_norm
(dense_matrix.h lines 567-579): columnsum += std::abs((*this)(i,j)) over
the rows i. -/
def DenseMatrix.colsum (A : DenseMatrix ℚ) (j : Nat) : ℚ :=
  (List.range A.m).foldl (fun s i => s + |A.entry i j|) 0

/-- DenseMatrix<T>::l1_norm (dense_matrix.h lines 560-583): asserts _m and _n
nonzero, then the running maximum over columns j = 1..n-1 of the column sums,
seeded with the sum of column 0; the ternary my_max > columnsum ? my_max :
columnsum is kept verbatim. -/
def DenseMatrix.l1_norm (A : DenseMatrix ℚ) : Option ℚ :=
  if A.m ≠ 0 ∧ A.n ≠ 0 then
    some (((List.range (A.n - 1)).map (fun j => A.colsum (j + 1))).foldl
      (fun mymax c => if mymax > c then mymax else c) (A.colsum 0))
  else none

/-- Row sum of absolute values accumulated by the inner loop of linfty_norm
(dense_matrix.h lines 594-607). -/
def DenseMatrix.rowsum (A : DenseMatrix ℚ) (i : Nat) : ℚ :=
  (List.range A.n).foldl (fun s j => s + |A.entry i j|) 0

/-- DenseMatrix<T>::linfty_norm (dense_matrix.h lines 587-610): running maximum
over rows i = 1..m-1 of the row sums, seeded with the sum of row 0. -/
def DenseMatrix.linfty_norm (A : DenseMatrix ℚ) : Option ℚ :=
  if A.m ≠ 0 ∧ A.n ≠ 0 then
    some (((List.range (A.m - 1)).map (fun i => A.rowsum (i + 1))).foldl
      (fun mymax c => if mymax > c then mymax else c) (A.rowsum 0))
  else none

/-- DenseMatrix<T>::transpose (dense_matrix.h lines 614-621): the (i,j) element
of the transposed matrix, implemented as the (j,i) accessor. -/
def DenseMatrix.transpose (A : DenseMatrix ℚ) (i j : Nat) : ℚ :=
  A.entry j i

/-- The n-by-m matrix whose entries are given by the transpose accessor,
materialized row-major so that the norm routines can run on it. -/
def DenseMatrix.transposeMat (A : DenseMatrix ℚ) : DenseMatrix ℚ :=
  { m := A.n, n := A.m,
    val := ((List.range (A.n * A.m)).map (fun k => A.transpose (k / A.m) (k % A.m))),
    decomposition_type := A.decomposition_type }

/-- Folding over List.range N only depends on the values of the step function
at indices below N. -/
theorem foldl_range_congr (N : Nat) (f g : ℚ → Nat → ℚ) (a : ℚ)
    (h : ∀ s j, j < N → f s j = g s j) :
    (List.range N).foldl f a = (List.range N).foldl g a := by
  induction N with
  | zero => rfl
  | succ N ih =>
    rw [List.range_succ, List.foldl_append, List.foldl_append]
    rw [ih (fun s j hj => h s j (Nat.lt_succ_of_lt hj))]
    simp only [List.foldl_cons, List.foldl_nil]
    exact h _ N (Nat.lt_succ_self N)

/-- In-range entries of the materialized transpose are the (j,i) entries of
the original matrix. -/
theorem transposeMat_entry (A : DenseMatrix ℚ) (i j : Nat)
    (hi : i < A.n) (hj : j < A.m) :
    (A.transposeMat).entry i j = A.entry j i := by
  have hm : 0 < A.m := Nat.lt_of_le_of_lt (Nat.zero_le j) hj
  have hk : i * A.m + j < A.n * A.m := by
    have h2 : (i + 1) * A.m ≤ A.n * A.m := Nat.mul_le_mul_right _ hi
    have h3 : (i + 1) * A.m = i * A.m + A.m := by ring
    omega
  show ((List.range (A.n * A.m)).map (fun k => A.transpose (k / A.m) (k % A.m))).getD
      (i * A.m + j) 0 = A.entry j i
  rw [getD_range_map _ _ _ _ hk]
  have hdiv : (i * A.m + j) / A.m = i := by
    rw [Nat.mul_comm i A.m, Nat.mul_add_div hm, Nat.div_eq_of_lt hj]
    omega
  have hmod : (i * A.m + j) % A.m = j := by
    rw [Nat.mul_comm i A.m, Nat.mul_add_mod, Nat.mod_eq_of_lt hj]
  rw [hdiv, hmod]
  rfl

/-- Claim C6: for every non-empty matrix, the l1 norm (maximum column sum of
absolute values) equals the linfty norm (maximum row sum) of the transpose,
the transpose entries being given by the (j,i) accessor. -/
theorem C6_norm_duality (A : DenseMatrix ℚ) (hm : A.m ≠ 0) (hn : A.n ≠ 0) :
    A.l1_norm = (A.transposeMat).linfty_norm := by
  have key : ∀ i, i < A.n → (A.transposeMat).rowsum i = A.colsum i := by
    intro i hi
    show (List.range A.m).foldl (fun s j => s + |(A.transposeMat).entry i j|) 0 =
      (List.range A.m).foldl (fun s r => s + |A.entry r i|) 0
    apply foldl_range_congr
    intro s j hj
    rw [transposeMat_entry A i j hi hj]
  have g1 : A.m ≠ 0 ∧ A.n ≠ 0 := ⟨hm, hn⟩
  have g2 : (A.transposeMat).m ≠ 0 ∧ (A.transposeMat).n ≠ 0 := ⟨hn, hm⟩
  unfold DenseMatrix.l1_norm DenseMatrix.linfty_norm
  rw [if_pos g1, if_pos g2]
  have hmap : (List.range ((A.transposeMat).m - 1)).map (fun i => (A.transposeMat).rowsum (i + 1)) =
      (List.range (A.n - 1)).map (fun j => A.colsum (j + 1)) := by
    apply List.map_congr_left
    intro i himem
    have hi : i < A.n - 1 := List.mem_range.mp himem
    exact key (i + 1) (by omega)
  rw [hmap, key 0 (Nat.pos_of_ne_zero hn)]

/-- Concrete 2-by-2 matrix used to witness claim C6. -/
def AC6 : DenseMatrix ℚ :=
  { m := 2, n := 2, val := [1, -2, 3, 4], decomposition_type := .NONE }

/-- Claim C6 witness: the norm duality evaluated on a concrete 2-by-2 matrix. -/
theorem C6_norm_duality_witness : AC6.l1_norm = (AC6.transposeMat).linfty_norm :=
  C6_norm_duality AC6 (by decide) (by decide)

/-- Complex scalars, modelled as pairs (real part, imaginary part) of
rationals. -/
abbrev Cplx : Type := ℚ × ℚ

/-- Modelled from the spec: genius_real of genius_common.h (that header is not
under src/); it projects a scalar to its real component, the component the
spec says min and max compare by. -/
def genius_real (c : Cplx) : ℚ := c.1

/-- The real components of all entries in the row-major double-loop order of
min and max (dense_matrix.h lines 526-533 and 547-554). -/
def DenseMatrix.reEntries (A : DenseMatrix Cplx) : List ℚ :=
  (List.range A.m).flatMap (fun i => (List.range A.n).map (fun j => genius_real (A.entry i j)))

/-- DenseMatrix<T>::min (dense_matrix.h lines 518-535): asserts _m and _n
nonzero, seeds my_min with genius_real((*this)(0,0)) and takes the running
ternary my_min < current ? my_min : current over every entry. -/
def DenseMatrix.min (A : DenseMatrix Cplx) : Option ℚ :=
  if A.m ≠ 0 ∧ A.n ≠ 0 then
    some (A.reEntries.foldl (fun mymin c => if mymin < c then mymin else c)
      (genius_real (A.entry 0 0)))
  else none

/-- DenseMatrix<T>::max (dense_matrix.h lines 539-556): same loop with the
ternary my_max > current ? my_max : current. -/
def DenseMatrix.max (A : DenseMatrix Cplx) : Option ℚ :=
  if A.m ≠ 0 ∧ A.n ≠ 0 then
    some (A.reEntries.foldl (fun mymax c => if mymax > c then mymax else c)
      (genius_real (A.entry 0 0)))
  else none

/-- The running-minimum fold is a lower bound of its seed and of every list
element. -/
theorem foldl_minacc_le (l : List ℚ) (a : ℚ) :
    l.foldl (fun x c => if x < c then x else c) a ≤ a ∧
    ∀ x ∈ l, l.foldl (fun x c => if x < c then x else c) a ≤ x := by
  induction l generalizing a with
  | nil => exact ⟨le_refl a, by simp⟩
  | cons c t ih =>
    simp only [List.foldl_cons]
    have hfa : (if a < c then a else c) ≤ a := by
      split
      · exact le_refl a
      · exact le_of_not_lt (by assumption)
    have hfc : (if a < c then a else c) ≤ c := by
      split
      · exact le_of_lt (by assumption)
      · exact le_refl c
    refine ⟨le_trans (ih _).1 hfa, ?_⟩
    intro x hx
    rcases List.mem_cons.mp hx with rfl | hx
    · exact le_trans (ih _).1 hfc
    · exact (ih _).2 x hx

/-- The running-minimum fold returns its seed or one of the list elements. -/
theorem foldl_minacc_attained (l : List ℚ) (a : ℚ) :
    l.foldl (fun x c => if x < c then x else c) a = a ∨
    l.foldl (fun x c => if x < c then x else c) a ∈ l := by
  induction l generalizing a with
  | nil => exact Or.inl rfl
  | cons c t ih =>
    simp only [List.foldl_cons]
    rcases ih (if a < c then a else c) with h | h
    · rw [h]
      split
      · exact Or.inl rfl
      · exact Or.inr (List.mem_cons_self c t)
    · exact Or.inr (List.mem_cons_of_mem c h)

/-- The running-maximum fold is an upper bound of its seed and of every list
element. -/
theorem foldl_maxacc_ge (l : List ℚ) (a : ℚ) :
    a ≤ l.foldl (fun x c => if x > c then x else c) a ∧
    ∀ x ∈ l, x ≤ l.foldl (fun x c => if x > c then x else c) a := by
  induction l generalizing a with
  | nil => exact ⟨le_refl a, by simp⟩
  | cons c t ih =>
    simp only [List.foldl_cons]
    have hfa : a ≤ (if a > c then a else c) := by
      split
      · exact le_refl a
      · exact le_of_not_lt (by assumption)
    have hfc : c ≤ (if a > c then a else c) := by
      split
      · exact le_of_lt (by assumption)
      · exact le_refl c
    refine ⟨le_trans hfa (ih _).1, ?_⟩
    intro x hx
    rcases List.mem_cons.mp hx with rfl | hx
    · exact le_trans hfc (ih _).1
    · exact (ih _).2 x hx

/-- The running-maximum fold returns its seed or one of the list elements. -/
theorem foldl_maxacc_attained (l : List ℚ) (a : ℚ) :
    l.foldl (fun x c => if x > c then x else c) a = a ∨
    l.foldl (fun x c => if x > c then x else c) a ∈ l := by
  induction l generalizing a with
  | nil => exact Or.inl rfl
  | cons c t ih =>
    simp only [List.foldl_cons]
    rcases ih (if a > c then a else c) with h | h
    · rw [h]
      split
      · exact Or.inl rfl
      · exact Or.inr (List.mem_cons_self c t)
    · exact Or.inr (List.mem_cons_of_mem c h)

/-- Membership in the list of real components of the entries. -/
theorem mem_reEntries (A : DenseMatrix Cplx) (x : ℚ) :
    x ∈ A.reEntries ↔ ∃ i, i < A.m ∧ ∃ j, j < A.n ∧ genius_real (A.entry i j) = x := by
  simp [DenseMatrix.reEntries, List.mem_flatMap, List.mem_map, List.mem_range]

/-- Claim C7: on an empty matrix min() and max() are a contract violation (the
debug assertion on _m or _n fires, modelled as none); on a non-empty matrix
they return a value, and any returned value is respectively a lower or upper
bound of the real components of all entries and is itself the real component
of some entry — i.e. the minimum and maximum over all entries of the real
component, the imaginary part being ignored for ordering. -/
theorem C7_min_max_by_real_part (A : DenseMatrix Cplx) :
    ((A.m = 0 ∨ A.n = 0) → A.min = none ∧ A.max = none) ∧
    (A.m ≠ 0 → A.n ≠ 0 → (A.min).isSome ∧ (A.max).isSome) ∧
    (∀ lo, A.min = some lo →
      (∀ i, i < A.m → ∀ j, j < A.n → lo ≤ genius_real (A.entry i j)) ∧
      (∃ i, i < A.m ∧ ∃ j, j < A.n ∧ genius_real (A.entry i j) = lo)) ∧
    (∀ hi, A.max = some hi →
      (∀ i, i < A.m → ∀ j, j < A.n → genius_real (A.entry i j) ≤ hi) ∧
      (∃ i, i < A.m ∧ ∃ j, j < A.n ∧ genius_real (A.entry i j) = hi)) := by
  refine ⟨?_, ?_, ?_, ?_⟩
  · intro h
    have hneg : ¬ (A.m ≠ 0 ∧ A.n ≠ 0) := by tauto
    constructor
    · unfold DenseMatrix.min
      rw [if_neg hneg]
    · unfold DenseMatrix.max
      rw [if_neg hneg]
  · intro hm hn
    constructor
    · unfold DenseMatrix.min
      rw [if_pos ⟨hm, hn⟩]
      rfl
    · unfold DenseMatrix.max
      rw [if_pos ⟨hm, hn⟩]
      rfl
  · intro lo hlo
    by_cases hg : A.m ≠ 0 ∧ A.n ≠ 0
    · unfold DenseMatrix.min at hlo
      rw [if_pos hg] at hlo
      have hval : lo =
          A.reEntries.foldl (fun x c => if x < c then x else c)
            (genius_real (A.entry 0 0)) :=
        (Option.some.inj hlo).symm
      constructor
      · intro i hi j hj
        rw [hval]
        exact (foldl_minacc_le _ _).2 _ ((mem_reEntries A _).mpr ⟨i, hi, j, hj, rfl⟩)
      · rcases foldl_minacc_attained A.reEntries (genius_real (A.entry 0 0)) with h | h
        · exact ⟨0, Nat.pos_of_ne_zero hg.1, 0, Nat.pos_of_ne_zero hg.2,
            by rw [hval, h]⟩
        · rcases (mem_reEntries A _).mp h with ⟨i, hi, j, hj, he⟩
          exact ⟨i, hi, j, hj, by rw [hval]; exact he⟩
    · unfold DenseMatrix.min at hlo
      rw [if_neg hg] at hlo
      exact absurd hlo (by simp)
  · intro hi hhi
    by_cases hg : A.m ≠ 0 ∧ A.n ≠ 0
    · unfold DenseMatrix.max at hhi
      rw [if_pos hg] at hhi
      have hval : hi =
          A.reEntries.foldl (fun x c => if x > c then x else c)
            (genius_real (A.entry 0 0)) :=
        (Option.some.inj hhi).symm
      constructor
      · intro i hi2 j hj
        rw [hval]
        exact (foldl_maxacc_ge _ _).2 _ ((mem_reEntries A _).mpr ⟨i, hi2, j, hj, rfl⟩)
      · rcases foldl_maxacc_attained A.reEntries (genius_real (A.entry 0 0)) with h | h
        · exact ⟨0, Nat.pos_of_ne_zero hg.1, 0, Nat.pos_of_ne_zero hg.2,
            by rw [hval, h]⟩
        · rcases (mem_reEntries A _).mp h with ⟨i, hi2, j, hj, he⟩
          exact ⟨i, hi2, j, hj, by rw [hval]; exact he⟩
    · unfold DenseMatrix.max at hhi
      rw [if_neg hg] at hhi
      exact absurd hhi (by simp)

/-- Concrete 1-by-2 complex matrix used to witness claim C7: entries 3+100i and
2-5i; ordering by real component gives min 2 and max 3, ignoring the much
larger and much smaller imaginary parts. -/
def AC7 : DenseMatrix Cplx :=
  { m := 1, n := 2, val := [(3, 100), (2, -5)], decomposition_type := .NONE }

/-- Claim C7 witness: min/max facts evaluated on the concrete complex matrix. -/
theorem C7_min_max_by_real_part_witness :
    (AC7.min).isSome ∧ (AC7.max).isSome ∧
    2 ≤ genius_real (AC7.entry 0 1) ∧ genius_real (AC7.entry 0 0) ≤ 3 :=
  ⟨((C7_min_max_by_real_part AC7).2.1 (by decide) (by decide)).1,
   ((C7_min_max_by_real_part AC7).2.1 (by decide) (by decide)).2,
   ((C7_min_max_by_real_part AC7).2.2.1 2 (by decide)).1 0 (by decide) 1 (by decide),
   ((C7_min_max_by_real_part AC7).2.2.2 3 (by decide)).1 0 (by decide) 0 (by decide)⟩

/-- Error raised by the LU path on a numerically zero pivot (spec section 7). -/
inductive SolveError where
  | SingularMatrixError
deriving DecidableEq, Repr

/-- Build an m-by-n rational matrix row-major from an entry function. -/
def mkMat (m n : Nat) (f : Nat → Nat → ℚ) (d : DecompositionType) : DenseMatrix ℚ :=
  { m := m, n := n, val := ((List.range (m * n)).map (fun k => f (k / n) (k % n))),
    decomposition_type := d }

/-- Modelled from the spec: one Gaussian elimination step of _lu_decompose at
pivot index k (the function body is not under src/, only its declaration in
dense_matrix.h line 280; spec section 4.2): rows below k store the multiplier
A(i,k)/A(k,k) in column k and are reduced to the right of it, producing the
combined unit-lower/upper triangular factors in place. -/
def elimStep (A : DenseMatrix ℚ) (k : Nat) : DenseMatrix ℚ :=
  mkMat A.m A.n (fun i j =>
    if k < i then
      if j = k then A.entry i k / A.entry k k
      else if k < j then A.entry i j - A.entry i k / A.entry k k * A.entry k j
      else A.entry i j
    else A.entry i j) A.decomposition_type

/-- Modelled from the spec: the partial-pivot row choice — the row from k
downward whose column-k candidate has the largest magnitude (spec sections
4.2 and its glossary entry on partial pivoting). -/
def pivotRow (A : DenseMatrix ℚ) (k : Nat) : Nat :=
  (List.range (A.m - k)).foldl
    (fun best off => if |A.entry (k + off) k| > |A.entry best k| then k + off else best) k

/-- Swap two whole rows of a matrix. -/
def swapRowsMat (A : DenseMatrix ℚ) (r s : Nat) : DenseMatrix ℚ :=
  mkMat A.m A.n
    (fun i j => if i = r then A.entry s j else if i = s then A.entry r j else A.entry i j)
    A.decomposition_type

/-- Modelled from the spec: the elimination loop of _lu_decompose (spec section
4.2).  The first argument counts the remaining steps, the second is the
current pivot index; the state carries the partially factored matrix and the
recorded row swaps.  With pivoting enabled the largest-magnitude candidate row
is swapped into place and the swap recorded; in either mode a zero pivot
fails with SingularMatrixError. -/
def luGo (pp : Bool) :
    Nat → Nat → DenseMatrix ℚ × List (Nat × Nat) →
    Except SolveError (DenseMatrix ℚ × List (Nat × Nat))
  | 0, _, st => .ok st
  | fuel + 1, k, (A, perm) =>
    let r := if pp then pivotRow A k else k
    let A1 := if pp then swapRowsMat A k r else A
    let perm1 := if pp then perm ++ [(k, r)] else perm
    if A1.entry k k = 0 then .error .SingularMatrixError
    else luGo pp fuel (k + 1) (elimStep A1 k, perm1)

/-- Modelled from the spec: _lu_decompose runs one elimination step per row and
tags the matrix LU-decomposed on success. -/
def luDecompose (A : DenseMatrix ℚ) (pp : Bool) :
    Except SolveError (DenseMatrix ℚ × List (Nat × Nat)) :=
  (luGo pp A.m 0 (A, [])).map
    (fun st => ({ st.1 with decomposition_type := .LU }, st.2))

/-- Exchange two positions of a vector. -/
def swapEntries (v : List ℚ) (a b : Nat) : List ℚ :=
  ((List.range v.length).map
    (fun i => if i = a then v.getD b 0 else if i = b then v.getD a 0 else v.getD i 0))

/-- Replay the recorded row swaps on the right-hand side before forward
substitution (spec section 4.2). -/
def applyPerm (perm : List (Nat × Nat)) (b : List ℚ) : List ℚ :=
  perm.foldl (fun v p => swapEntries v p.1 p.2) b

/-- Modelled from the spec: forward substitution with the implied unit diagonal
of the lower factor (spec section 4.2). -/
def forwardSub (F : DenseMatrix ℚ) (b : List ℚ) : List ℚ :=
  (List.range F.m).foldl
    (fun ys i =>
      ys ++ [b.getD i 0 - ((List.range i).map (fun j => F.entry i j * ys.getD j 0)).sum])
    []

/-- Modelled from the spec: backward substitution through the upper factor,
dividing by the diagonal pivots (spec section 4.2). -/
def backwardSub (F : DenseMatrix ℚ) (y : List ℚ) : List ℚ :=
  (List.range F.m).foldr
    (fun i xs =>
      (y.getD i 0 -
        ((List.range (F.m - (i + 1))).map
          (fun t => F.entry i (i + 1 + t) * xs.getD t 0)).sum) / F.entry i i :: xs)
    []

/-- Modelled from the spec: lu_solve — decompose (optionally with partial
pivoting), permute the right-hand side, then forward and backward substitute
(dense_matrix.h lines 231-233 declares it; the body is not under src/). -/
def lu_solve (A : DenseMatrix ℚ) (b : List ℚ) (pp : Bool) :
    Except SolveError (DenseMatrix ℚ × List ℚ) :=
  match luDecompose A pp with
  | .error e => .error e
  | .ok (F, perm) => .ok (F, backwardSub F (forwardSub F (applyPerm perm b)))

/-- The concrete matrix [[0,1],[1,0]] of claim C3. -/
def A01 : DenseMatrix ℚ :=
  { m := 2, n := 2, val := [0, 1, 1, 0], decomposition_type := .NONE }

/-- Claim C3: without partial pivoting, whenever an elimination step meets a
zero pivot candidate the LU decomposition fails with SingularMatrixError (and
the error propagates out of the call); concretely, on A = [[0,1],[1,0]]
lu_solve without pivoting fails with SingularMatrixError, while with partial
pivoting it succeeds, returning the exact solution [2, 1] of A x = [1, 2]. -/
theorem C3_lu_zero_pivot (A : DenseMatrix ℚ) (perm : List (Nat × Nat)) (k fuel : Nat) :
    (A.entry k k = 0 →
      luGo false (fuel + 1) k (A, perm) = .error .SingularMatrixError) ∧
    lu_solve A01 [1, 2] false = .error .SingularMatrixError ∧
    lu_solve A01 [1, 2] true =
      .ok ({ m := 2, n := 2, val := [1, 0, 0, 1], decomposition_type := .LU }, [2, 1]) := by
  refine ⟨fun h => ?_, by rfl, by rfl⟩
  simp [luGo, h]

/-- Claim C3 witness: the zero-pivot failure law applied to the concrete matrix
[[0,1],[1,0]] at the first elimination step, together with the two concrete
solve outcomes. -/
theorem C3_lu_zero_pivot_witness :
    luGo false (0 + 1) 0 (A01, []) = .error .SingularMatrixError ∧
    lu_solve A01 [1, 2] false = .error .SingularMatrixError ∧
    lu_solve A01 [1, 2] true =
      .ok ({ m := 2, n := 2, val := [1, 0, 0, 1], decomposition_type := .LU }, [2, 1]) :=
  ⟨(C3_lu_zero_pivot A01 [] 0 0).1 (by decide),
   (C3_lu_zero_pivot A01 [] 0 0).2.1,
   (C3_lu_zero_pivot A01 [] 0 0).2.2⟩
